import Mathlib

/-!
Verification of the storage-booking backend's booking admission logic.

The backend (Express + Sequelize) is embedded shallowly:
* calendar dates are modelled as epoch day numbers (`Int`); every booking
  date in the system is a date-only value (midnight-aligned), so JS `Date`
  comparison is integer comparison and date-fns `differenceInDays` is
  plain subtraction of day numbers;
* currency amounts (`DECIMAL(10,2)` columns, JS numbers) are modelled as
  exact rationals, with JS `Math.round` modelled as floor(x + 1/2);
* the two Sequelize tables are lists inside a `DB` record, and each route
  handler becomes a function from `DB` (plus the request data and the
  current time `now`) to a result paired with the updated `DB`.
-/

namespace StorageBooking

/-- The four values of the `status` ENUM on the `bookings` table. -/
inductive BookingStatus where
  | upcoming
  | active
  | completed
  | cancelled
deriving DecidableEq, Repr

/-- A row of the `storage_units` table (the fields the booking logic reads). -/
structure StorageUnit where
  id : Nat
  name : String
  pricePerDay : ℚ
  isAvailable : Bool
deriving DecidableEq, Repr

/-- A row of the `bookings` table (the fields the booking logic reads and writes). -/
structure Booking where
  id : Nat
  userName : String
  unitId : Nat
  startDate : Int
  endDate : Int
  totalCost : ℚ
  status : BookingStatus
deriving DecidableEq, Repr

/-- The persistent store: both tables plus the auto-increment counter. -/
structure DB where
  units : List StorageUnit
  bookings : List Booking
  nextId : Nat
deriving DecidableEq, Repr

/-- `status IN ('upcoming','active')` — the status filter used by both the
conflict checker in `bookings.js` and the availability query in `units.js`. -/
def isUpcomingOrActive (st : BookingStatus) : Bool :=
  match st with
  | .upcoming => true
  | .active => true
  | _ => false

/-- The four-clause date disjunction of `checkBookingConflict`
(`bookings.js` lines 36–63), written on an existing booking `[s2,e2]`
against the candidate `[s1,e1]`: existing start BETWEEN candidate range,
existing end BETWEEN candidate range, candidate encloses existing,
existing encloses candidate. `Op.between` is inclusive on both ends. -/
def conflictClauses (s1 e1 s2 e2 : Int) : Prop :=
  (s1 ≤ s2 ∧ s2 ≤ e1) ∨ (s1 ≤ e2 ∧ e2 ≤ e1) ∨ (s2 ≥ s1 ∧ e2 ≤ e1) ∨ (s2 ≤ s1 ∧ e2 ≥ e1)

instance (s1 e1 s2 e2 : Int) : Decidable (conflictClauses s1 e1 s2 e2) := by
  unfold conflictClauses; infer_instance

/-- The three-clause date disjunction of the availability query
(`units.js` lines 195–212): existing start BETWEEN candidate range,
existing end BETWEEN candidate range, existing encloses candidate. -/
def availabilityClauses (s1 e1 s2 e2 : Int) : Prop :=
  (s1 ≤ s2 ∧ s2 ≤ e1) ∨ (s1 ≤ e2 ∧ e2 ≤ e1) ∨ (s2 ≤ s1 ∧ e2 ≥ e1)

instance (s1 e1 s2 e2 : Int) : Decidable (availabilityClauses s1 e1 s2 e2) := by
  unfold availabilityClauses; infer_instance

/-- The spec's symmetric overlap predicate on inclusive ranges:
`[s1,e1]` and `[s2,e2]` overlap iff `s1 ≤ e2 ∧ s2 ≤ e1`. -/
def overlaps (s1 e1 s2 e2 : Int) : Prop :=
  s1 ≤ e2 ∧ s2 ≤ e1

instance (s1 e1 s2 e2 : Int) : Decidable (overlaps s1 e1 s2 e2) := by
  unfold overlaps; infer_instance

/-- date-fns `differenceInDays` restricted to midnight-aligned dates:
the whole number of calendar days from `s` to `e`, i.e. subtraction of
epoch day numbers. -/
def differenceInDays (e s : Int) : Int := e - s

/-- JS `Math.round`: round half toward positive infinity, `⌊x + 1/2⌋`. -/
def jsRound (x : ℚ) : Int := ⌊x + 1 / 2⌋

/-- `calculateTotalCost` (`bookings.js` lines 16–20):
`days = differenceInDays(endDate, startDate) + 1`, then
`Math.round(days * pricePerDay * 100) / 100`. -/
def calculateTotalCost (startDate endDate : Int) (pricePerDay : ℚ) : ℚ :=
  let days : Int := differenceInDays endDate startDate + 1
  (jsRound ((days : ℚ) * pricePerDay * 100) : ℚ) / 100

/-- The spec's cost formula: inclusive day count `(endDate − startDate) + 1`
times the daily rate, rounded (half-up) to 2 decimal places. -/
def totalCostSpec (startDate endDate : Int) (pricePerDay : ℚ) : ℚ :=
  (jsRound (((endDate - startDate + 1 : Int) : ℚ) * pricePerDay * 100) : ℚ) / 100

/-- Epoch day number of a civil date (1970-01-01 ↦ 0), so that concrete
calendar dates such as 2024-03-01 can be fed to the cost function. -/
def daysFromCivil (y m d : Int) : Int :=
  let yAdj := if m ≤ 2 then y - 1 else y
  let era := (if 0 ≤ yAdj then yAdj else yAdj - 399) / 400
  let yoe := yAdj - era * 400
  let mp := (m + 9) % 12
  let doy := (153 * mp + 2) / 5 + d - 1
  let doe := yoe * 365 + yoe / 4 - yoe / 100 + doy
  era * 146097 + doe - 719468

/-- `determineBookingStatus` (`bookings.js` lines 85–91): pure status
resolver from the booking dates and the current time. -/
def determineBookingStatus (startDate endDate now : Int) : BookingStatus :=
  if now < startDate then .upcoming
  else if now > endDate then .completed
  else .active

/-- The lazy status refresh applied on every read (`bookings.js` GET `/`
lines 220–240 and GET `/:id` lines 291–300): non-cancelled bookings are
re-resolved against `now`; cancelled ones are left alone. -/
def refreshStatus (b : Booking) (now : Int) : Booking :=
  if b.status = .cancelled then b
  else { b with status := determineBookingStatus b.startDate b.endDate now }

/-- `StorageUnit.findByPk(unitId)`. -/
def findUnit (db : DB) (unitId : Nat) : Option StorageUnit :=
  db.units.find? (fun u => u.id == unitId)

/-- `Booking.findByPk(bookingId)`. -/
def findBooking (db : DB) (bookingId : Nat) : Option Booking :=
  db.bookings.find? (fun b => b.id == bookingId)

/-- `checkBookingConflict` (`bookings.js` lines 30–77): true when some
booking of the unit in status upcoming/active satisfies the four-clause
date disjunction, optionally excluding one booking id. -/
def checkBookingConflict (db : DB) (unitId : Nat) (startDate endDate : Int)
    (excludeBookingId : Option Nat) : Bool :=
  let conflictingBookings := db.bookings.filter (fun b =>
    b.unitId == unitId &&
    isUpcomingOrActive b.status &&
    decide (conflictClauses startDate endDate b.startDate b.endDate) &&
    (match excludeBookingId with
     | some i => b.id != i
     | none => true))
  decide (0 < conflictingBookings.length)

/-- The structured rejections of booking admission (§7 taxonomy). -/
inductive CreateError where
  | NotFound
  | Unavailable
  | Conflict
deriving DecidableEq, Repr

/-- POST `/api/bookings` (`bookings.js` lines 97–178) on validated input:
load the unit (404 if absent), reject if the unit is administratively
unavailable, reject on a date conflict, otherwise compute cost and status
and persist one new booking row. -/
def createBooking (db : DB) (userName : String) (unitId : Nat)
    (startDate endDate now : Int) : Except CreateError Booking × DB :=
  match findUnit db unitId with
  | none => (.error .NotFound, db)
  | some storageUnit =>
    if !storageUnit.isAvailable then (.error .Unavailable, db)
    else if checkBookingConflict db unitId startDate endDate none then
      (.error .Conflict, db)
    else
      let totalCost := calculateTotalCost startDate endDate storageUnit.pricePerDay
      let status := determineBookingStatus startDate endDate now
      let booking : Booking :=
        ⟨db.nextId, userName, unitId, startDate, endDate, totalCost, status⟩
      (.ok booking, { db with bookings := db.bookings ++ [booking], nextId := db.nextId + 1 })

/-- The structured rejections of cancellation (§7 taxonomy). -/
inductive CancelError where
  | NotFound
  | AlreadyCancelled
  | InvalidTransition
deriving DecidableEq, Repr

/-- PUT `/api/bookings/:id/cancel` (`bookings.js` lines 315–363): 404 if the
booking is absent, reject if already cancelled or completed, otherwise
update the row's status to cancelled. -/
def cancelBooking (db : DB) (bookingId : Nat) : Except CancelError Booking × DB :=
  match findBooking db bookingId with
  | none => (.error .NotFound, db)
  | some booking =>
    if booking.status = .cancelled then (.error .AlreadyCancelled, db)
    else if booking.status = .completed then (.error .InvalidTransition, db)
    else
      (.ok { booking with status := BookingStatus.cancelled },
       { db with bookings := db.bookings.map (fun b =>
           if b.id == bookingId then { b with status := BookingStatus.cancelled } else b) })

/-- GET `/api/units/:id/availability` (`units.js` lines 151–231) after date
validation: `none` when the unit is absent, otherwise the availability
verdict `unit.isAvailable && conflictingBookings.length === 0` together
with the conflicting bookings found by the three-clause query. -/
def checkAvailability (db : DB) (unitId : Nat) (startDate endDate : Int) :
    Option (Bool × List Booking) :=
  match findUnit db unitId with
  | none => none
  | some storageUnit =>
    let conflictingBookings := db.bookings.filter (fun b =>
      b.unitId == unitId &&
      isUpcomingOrActive b.status &&
      decide (availabilityClauses startDate endDate b.startDate b.endDate))
    some (storageUnit.isAvailable && conflictingBookings.length == 0, conflictingBookings)

/-- A validated booking-admission request (the data POST `/api/bookings`
receives from the validation middleware). -/
structure AdmitRequest where
  userName : String
  unitId : Nat
  startDate : Int
  endDate : Int
deriving DecidableEq, Repr

/-- The read phase of POST `/api/bookings` — everything up to and including
the awaited `checkBookingConflict` call — evaluated against a database
snapshot: the unit exists, is available, and has no conflicting booking. -/
def admitChecksPass (db : DB) (r : AdmitRequest) : Bool :=
  match findUnit db r.unitId with
  | none => false
  | some u =>
    u.isAvailable && !(checkBookingConflict db r.unitId r.startDate r.endDate none)

/-- The write phase of POST `/api/bookings` — the awaited `Booking.create`
call — executed after the checks. -/
def insertBooking (db : DB) (r : AdmitRequest) (now : Int) : DB :=
  match findUnit db r.unitId with
  | none => db
  | some u =>
    { db with
        bookings := db.bookings ++
          [⟨db.nextId, r.userName, r.unitId, r.startDate, r.endDate,
            calculateTotalCost r.startDate r.endDate u.pricePerDay,
            determineBookingStatus r.startDate r.endDate now⟩],
        nextId := db.nextId + 1 }

/-- Two concurrent POST `/api/bookings` handlers interleaved as
check₁ · check₂ · insert₁ · insert₂. The handler issues the conflict check
and the insert as two separate awaited operations with no enclosing
transaction or lock (`bookings.js` lines 122–148), so between any two of
those awaits the other request may run; in this schedule both conflict
checks read the same initial snapshot. Returns the final store and each
request's admission verdict. -/
def racedAdmit (db : DB) (r1 r2 : AdmitRequest) (now : Int) : DB × Bool × Bool :=
  let ok1 := admitChecksPass db r1
  let ok2 := admitChecksPass db r2
  let db1 := if ok1 then insertBooking db r1 now else db
  let db2 := if ok2 then insertBooking db1 r2 now else db1
  (db2, ok1, ok2)

/-- Case-sensitive prefix match of a plain (wildcard-free) character list. -/
def begMatches : List Char → List Char → Bool
  | [], _ => true
  | _ :: _, [] => false
  | p :: ps, c :: ts => p == c && begMatches ps ts

/-- Executable contiguous-substring test: `q` occurs somewhere in `t`. -/
def occursIn (q : List Char) : List Char → Bool
  | [] => q.isEmpty
  | c :: ts => begMatches q (c :: ts) || occursIn q ts

/-- `q` occurs as a contiguous substring of `t` (propositional form). -/
def OccursIn (q t : List Char) : Prop := ∃ u v, t = u ++ q ++ v

/-- Postgres LIKE/ILIKE pattern matching, as invoked by `Op.iLike`:
`%` matches any character sequence, `_` matches any single character, and
every other pattern character matches case-insensitively (escape sequences
are not modelled). -/
def likeMatch : List Char → List Char → Bool
  | [], t => t.isEmpty
  | p :: ps, [] => p == '%' && likeMatch ps []
  | p :: ps, c :: ts =>
    if p == '%' then likeMatch ps (c :: ts) || likeMatch (p :: ps) ts
    else if p == '_' then likeMatch ps ts
    else p.toLower == c.toLower && likeMatch ps ts

/-- The GET `/api/bookings` whereClause (`bookings.js` lines 194–199):
select the bookings whose userName matches `ILIKE '%' || userName || '%'`.
The `userName` parameter is the `validatedUserName` the handler receives,
i.e. the query string already trimmed by the validation middleware. -/
def listBookingsForUser (db : DB) (userName : String) : List Booking :=
  db.bookings.filter (fun b => likeMatch ('%' :: userName.data ++ ['%']) b.userName.data)

end StorageBooking

namespace StorageBooking

/-- On well-formed ranges the four-clause disjunction of the conflict
checker coincides with the symmetric overlap predicate. -/
lemma conflictClauses_iff_overlaps {s1 e1 s2 e2 : Int}
    (h1 : s1 ≤ e1) (h2 : s2 ≤ e2) :
    conflictClauses s1 e1 s2 e2 ↔ overlaps s1 e1 s2 e2 := by
  unfold conflictClauses overlaps
  omega

/-- On well-formed ranges the three-clause disjunction of the availability
query coincides with the symmetric overlap predicate. -/
lemma availabilityClauses_iff_overlaps {s1 e1 s2 e2 : Int}
    (h1 : s1 ≤ e1) (h2 : s2 ≤ e2) :
    availabilityClauses s1 e1 s2 e2 ↔ overlaps s1 e1 s2 e2 := by
  unfold availabilityClauses overlaps
  omega

/-- The `status IN ('upcoming','active')` filter as a proposition. -/
lemma isUpcomingOrActive_iff (st : BookingStatus) :
    isUpcomingOrActive st = true ↔ st = .upcoming ∨ st = .active := by
  cases st <;> simp [isUpcomingOrActive]

/-- The conflict checker (with no exclusion) reports a conflict exactly when
some stored booking of the unit in status upcoming/active overlaps the
candidate inclusive range. -/
lemma checkBookingConflict_iff (db : DB) (uid : Nat) (s e : Int)
    (hse : s ≤ e) (hwf : ∀ b ∈ db.bookings, b.startDate ≤ b.endDate) :
    checkBookingConflict db uid s e none = true ↔
      ∃ b ∈ db.bookings, b.unitId = uid ∧
        (b.status = .upcoming ∨ b.status = .active) ∧
        overlaps s e b.startDate b.endDate := by
  unfold checkBookingConflict
  rw [decide_eq_true_eq, List.length_pos_iff_exists_mem]
  constructor
  · rintro ⟨b, hb⟩
    rw [List.mem_filter] at hb
    obtain ⟨hmem, hp⟩ := hb
    simp only [Bool.and_eq_true, beq_iff_eq, isUpcomingOrActive_iff,
      decide_eq_true_eq] at hp
    exact ⟨b, hmem, hp.1.1.1, hp.1.1.2,
      (conflictClauses_iff_overlaps hse (hwf b hmem)).mp hp.1.2⟩
  · rintro ⟨b, hb, h1, h2, h3⟩
    refine ⟨b, List.mem_filter.mpr ⟨hb, ?_⟩⟩
    simp only [Bool.and_eq_true, beq_iff_eq, isUpcomingOrActive_iff, decide_eq_true_eq]
    exact ⟨⟨⟨h1, h2⟩, (conflictClauses_iff_overlaps hse (hwf b hb)).mpr h3⟩, trivial⟩

/-- C1: for inclusive well-formed ranges, the conflict checker's four-clause
disjunction and the availability endpoint's three-clause disjunction are each
equivalent to the symmetric overlap predicate `s1 ≤ e2 ∧ s2 ≤ e1`. -/
theorem clause_disjunctions_iff_symmetric_overlap
    (s1 e1 s2 e2 : Int) (h1 : s1 ≤ e1) (h2 : s2 ≤ e2) :
    (conflictClauses s1 e1 s2 e2 ↔ overlaps s1 e1 s2 e2) ∧
    (availabilityClauses s1 e1 s2 e2 ↔ overlaps s1 e1 s2 e2) :=
  ⟨conflictClauses_iff_overlaps h1 h2, availabilityClauses_iff_overlaps h1 h2⟩

/-- C1 witness: the equivalence instantiated on the concrete ranges
`[10,20]` and `[15,25]`. -/
theorem clause_disjunctions_iff_symmetric_overlap_witness :
    (conflictClauses 10 20 15 25 ↔ overlaps 10 20 15 25) ∧
    (availabilityClauses 10 20 15 25 ↔ overlaps 10 20 15 25) :=
  clause_disjunctions_iff_symmetric_overlap 10 20 15 25 (by decide) (by decide)

/-- C3: the implemented cost is the spec formula — inclusive day count times
the daily rate, rounded half-up to 2 decimals — and on the concrete example
2024-03-01 .. 2024-03-15 at rate 25 it yields 15 × 25 = 375. -/
theorem calculateTotalCost_spec (s e : Int) (rate : ℚ)
    (hse : s ≤ e) (hrate : 0 ≤ rate) :
    calculateTotalCost s e rate = totalCostSpec s e rate ∧
    calculateTotalCost (daysFromCivil 2024 3 1) (daysFromCivil 2024 3 15) 25 = 375 := by
  have hs : daysFromCivil 2024 3 1 = 19783 := by decide
  have he : daysFromCivil 2024 3 15 = 19797 := by decide
  refine ⟨rfl, ?_⟩
  rw [hs, he]
  norm_num [calculateTotalCost, differenceInDays, jsRound]

/-- C3 witness: the cost identity instantiated at days 0..4 and rate 3/2,
together with the concrete 375.00 example. -/
theorem calculateTotalCost_spec_witness :
    calculateTotalCost 0 4 (3 / 2) = totalCostSpec 0 4 (3 / 2) ∧
    calculateTotalCost (daysFromCivil 2024 3 1) (daysFromCivil 2024 3 15) 25 = 375 :=
  calculateTotalCost_spec 0 4 (3 / 2) (by decide) (by norm_num)

/-- C4: on a well-formed range the status resolver returns `upcoming` when
`now` precedes the start, `completed` when `now` passes the end, `active`
when `now` lies inside the inclusive range, and never returns `cancelled`. -/
theorem determineBookingStatus_spec (s e now : Int) (hse : s ≤ e) :
    (now < s → determineBookingStatus s e now = .upcoming) ∧
    (now > e → determineBookingStatus s e now = .completed) ∧
    (s ≤ now → now ≤ e → determineBookingStatus s e now = .active) ∧
    determineBookingStatus s e now ≠ .cancelled := by
  unfold determineBookingStatus
  refine ⟨fun h => ?_, fun h => ?_, fun h1 h2 => ?_, ?_⟩ <;>
    split_ifs <;> first | rfl | omega | decide

/-- C4 witness: the resolver clauses instantiated at start 0, end 10,
now 5. -/
theorem determineBookingStatus_spec_witness :
    ((5 : Int) < 0 → determineBookingStatus 0 10 5 = .upcoming) ∧
    ((5 : Int) > 10 → determineBookingStatus 0 10 5 = .completed) ∧
    ((0 : Int) ≤ 5 → (5 : Int) ≤ 10 → determineBookingStatus 0 10 5 = .active) ∧
    determineBookingStatus 0 10 5 ≠ .cancelled :=
  determineBookingStatus_spec 0 10 5 (by decide)

/-- C5: the lazy status refresh performed on reads leaves a cancelled
booking entirely unchanged, for every value of `now`. -/
theorem refreshStatus_cancelled (b : Booking) (now : Int)
    (h : b.status = .cancelled) :
    refreshStatus b now = b ∧ (refreshStatus b now).status = .cancelled := by
  unfold refreshStatus
  rw [if_pos h]
  exact ⟨rfl, h⟩

/-- C5 witness: refreshing a concrete cancelled booking at a `now` far past
its end date changes nothing. -/
theorem refreshStatus_cancelled_witness :
    refreshStatus ⟨1, "Bob", 1, 0, 10, 100, .cancelled⟩ 99 =
      ⟨1, "Bob", 1, 0, 10, 100, .cancelled⟩ ∧
    (refreshStatus ⟨1, "Bob", 1, 0, 10, 100, .cancelled⟩ 99).status = .cancelled :=
  refreshStatus_cancelled ⟨1, "Bob", 1, 0, 10, 100, .cancelled⟩ 99 rfl

/-- C2: booking creation fails with NotFound when the unit is absent, with
Unavailable when the unit's flag is off, with Conflict when some stored
upcoming/active booking of the unit overlaps the candidate range — leaving
the booking table untouched in all three cases — and otherwise persists
exactly one new booking carrying the request data, the computed cost and
the computed status. -/
theorem createBooking_spec (db : DB) (uName : String) (uid : Nat)
    (s e now : Int) (hse : s ≤ e)
    (hwf : ∀ b ∈ db.bookings, b.startDate ≤ b.endDate) :
    (findUnit db uid = none →
      createBooking db uName uid s e now = (.error .NotFound, db)) ∧
    (∀ u, findUnit db uid = some u → u.isAvailable = false →
      createBooking db uName uid s e now = (.error .Unavailable, db)) ∧
    (∀ u, findUnit db uid = some u → u.isAvailable = true →
      (∃ b ∈ db.bookings, b.unitId = uid ∧
        (b.status = .upcoming ∨ b.status = .active) ∧
        overlaps s e b.startDate b.endDate) →
      createBooking db uName uid s e now = (.error .Conflict, db)) ∧
    (∀ u, findUnit db uid = some u → u.isAvailable = true →
      (¬ ∃ b ∈ db.bookings, b.unitId = uid ∧
        (b.status = .upcoming ∨ b.status = .active) ∧
        overlaps s e b.startDate b.endDate) →
      createBooking db uName uid s e now =
        (.ok ⟨db.nextId, uName, uid, s, e,
            calculateTotalCost s e u.pricePerDay,
            determineBookingStatus s e now⟩,
         { db with
             bookings := db.bookings ++
               [⟨db.nextId, uName, uid, s, e,
                 calculateTotalCost s e u.pricePerDay,
                 determineBookingStatus s e now⟩],
             nextId := db.nextId + 1 })) := by
  refine ⟨fun h => ?_, fun u hu hun => ?_, fun u hu hav hconf => ?_,
    fun u hu hav hnoconf => ?_⟩
  · unfold createBooking
    rw [h]
  · simp [createBooking, hu, hun]
  · have hc : checkBookingConflict db uid s e none = true :=
      (checkBookingConflict_iff db uid s e hse hwf).mpr hconf
    simp [createBooking, hu, hav, hc]
  · have hc : checkBookingConflict db uid s e none = false := by
      rw [Bool.eq_false_iff]
      intro hc
      exact hnoconf ((checkBookingConflict_iff db uid s e hse hwf).mp hc)
    simp [createBooking, hu, hav, hc]

/-- C2 witness: on a store with a single available unit and no bookings,
creating a booking for days 10..12 at rate 25 succeeds and appends exactly
that booking. -/
theorem createBooking_spec_witness :
    createBooking ⟨[⟨1, "Unit A", 25, true⟩], [], 5⟩ "Alice" 1 10 12 11 =
      (.ok ⟨5, "Alice", 1, 10, 12, calculateTotalCost 10 12 25,
          determineBookingStatus 10 12 11⟩,
       ⟨[⟨1, "Unit A", 25, true⟩],
        [⟨5, "Alice", 1, 10, 12, calculateTotalCost 10 12 25,
          determineBookingStatus 10 12 11⟩], 6⟩) := by
  have h := createBooking_spec ⟨[⟨1, "Unit A", 25, true⟩], [], 5⟩
    "Alice" 1 10 12 11 (by decide) (by simp)
  exact h.2.2.2 ⟨1, "Unit A", 25, true⟩ rfl rfl (by simp)

/-- Locating a booking by id commutes with the status-only row update of
cancellation: the first row matching the id in the updated table is the
previously found row with its status set to cancelled. -/
lemma find_map_cancel (l : List Booking) (bid : Nat) (b : Booking)
    (h : l.find? (fun x => x.id == bid) = some b) :
    (l.map (fun x => if x.id == bid
        then { x with status := BookingStatus.cancelled } else x)).find?
      (fun x => x.id == bid) = some { b with status := BookingStatus.cancelled } := by
  induction l with
  | nil => simp at h
  | cons hd tl ih =>
    by_cases hhd : hd.id == bid
    · rw [List.find?_cons_of_pos (p := fun x : Booking => x.id == bid) tl hhd] at h
      obtain rfl : hd = b := by injection h
      simp only [List.map_cons, if_pos hhd]
      exact List.find?_cons_of_pos (p := fun x : Booking => x.id == bid) _ (by simpa using hhd)
    · rw [List.find?_cons_of_neg (p := fun x : Booking => x.id == bid) tl hhd] at h
      simp only [List.map_cons, if_neg hhd]
      rw [List.find?_cons_of_neg (p := fun x : Booking => x.id == bid) _ hhd]
      exact ih h

/-- C6: cancellation fails with NotFound when no booking has the id, with
AlreadyCancelled on a cancelled booking and with InvalidTransition on a
completed one — leaving the store untouched in all three cases — and on an
upcoming or active booking it succeeds, after which the stored row is the
old row with status cancelled. -/
theorem cancelBooking_spec (db : DB) (bid : Nat) :
    (findBooking db bid = none → cancelBooking db bid = (.error .NotFound, db)) ∧
    (∀ b, findBooking db bid = some b → b.status = .cancelled →
      cancelBooking db bid = (.error .AlreadyCancelled, db)) ∧
    (∀ b, findBooking db bid = some b → b.status = .completed →
      cancelBooking db bid = (.error .InvalidTransition, db)) ∧
    (∀ b, findBooking db bid = some b →
      (b.status = .upcoming ∨ b.status = .active) →
      (cancelBooking db bid).1 = .ok { b with status := BookingStatus.cancelled } ∧
      findBooking (cancelBooking db bid).2 bid =
        some { b with status := BookingStatus.cancelled }) := by
  refine ⟨fun h => ?_, fun b hb hst => ?_, fun b hb hst => ?_, fun b hb hst => ?_⟩
  · unfold cancelBooking
    rw [h]
  · simp [cancelBooking, hb, hst]
  · simp [cancelBooking, hb, hst]
  · have h1 : b.status ≠ BookingStatus.cancelled := by
      rcases hst with h | h <;> simp [h]
    have h2 : b.status ≠ BookingStatus.completed := by
      rcases hst with h | h <;> simp [h]
    constructor
    · simp [cancelBooking, hb, h1, h2]
    · have hmap := find_map_cancel db.bookings bid b hb
      simp only [cancelBooking, hb, h1, h2, if_neg, ite_false]
      simpa [findBooking, h1, h2] using hmap

/-- C6 witness: cancelling on an empty store fails with NotFound and
changes nothing. -/
theorem cancelBooking_spec_witness :
    cancelBooking ⟨[], [], 1⟩ 3 = (.error .NotFound, ⟨[], [], 1⟩) :=
  (cancelBooking_spec ⟨[], [], 1⟩ 3).1 rfl

/-- C7: successful cancellation only changes the status field — the
returned booking keeps the id, user, unit, dates and cost of the stored
one — and every row of the updated table agrees with its old row on all
fields except possibly status. -/
theorem cancelBooking_frame (db : DB) (bid : Nat) (b : Booking)
    (hb : findBooking db bid = some b)
    (hst : b.status = .upcoming ∨ b.status = .active) :
    (∃ c, (cancelBooking db bid).1 = .ok c ∧ c.status = .cancelled ∧
      c.id = b.id ∧ c.userName = b.userName ∧ c.unitId = b.unitId ∧
      c.startDate = b.startDate ∧ c.endDate = b.endDate ∧
      c.totalCost = b.totalCost) ∧
    List.Forall₂ (fun old new => new.id = old.id ∧ new.userName = old.userName ∧
        new.unitId = old.unitId ∧ new.startDate = old.startDate ∧
        new.endDate = old.endDate ∧ new.totalCost = old.totalCost)
      db.bookings (cancelBooking db bid).2.bookings := by
  have h1 : b.status ≠ BookingStatus.cancelled := by
    rcases hst with h | h <;> simp [h]
  have h2 : b.status ≠ BookingStatus.completed := by
    rcases hst with h | h <;> simp [h]
  constructor
  · refine ⟨{ b with status := BookingStatus.cancelled }, ?_, rfl, rfl, rfl, rfl, rfl, rfl, rfl⟩
    simp [cancelBooking, hb, h1, h2]
  · have hdb : (cancelBooking db bid).2.bookings =
        db.bookings.map (fun x => if x.id == bid
          then { x with status := BookingStatus.cancelled } else x) := by
      simp [cancelBooking, hb, h1, h2]
    rw [hdb, List.forall₂_map_right_iff, List.forall₂_same]
    intro x _
    by_cases hx : x.id == bid <;> simp [hx]

/-- C7 witness: cancelling a concrete upcoming booking preserves all its
fields except status. -/
theorem cancelBooking_frame_witness :
    (∃ c, (cancelBooking ⟨[], [⟨4, "Carol", 2, 3, 9, 150, .upcoming⟩], 5⟩ 4).1 =
        .ok c ∧ c.status = .cancelled ∧
      c.id = (⟨4, "Carol", 2, 3, 9, 150, .upcoming⟩ : Booking).id ∧
      c.userName = (⟨4, "Carol", 2, 3, 9, 150, .upcoming⟩ : Booking).userName ∧
      c.unitId = (⟨4, "Carol", 2, 3, 9, 150, .upcoming⟩ : Booking).unitId ∧
      c.startDate = (⟨4, "Carol", 2, 3, 9, 150, .upcoming⟩ : Booking).startDate ∧
      c.endDate = (⟨4, "Carol", 2, 3, 9, 150, .upcoming⟩ : Booking).endDate ∧
      c.totalCost = (⟨4, "Carol", 2, 3, 9, 150, .upcoming⟩ : Booking).totalCost) ∧
    List.Forall₂ (fun old new => new.id = old.id ∧ new.userName = old.userName ∧
        new.unitId = old.unitId ∧ new.startDate = old.startDate ∧
        new.endDate = old.endDate ∧ new.totalCost = old.totalCost)
      (⟨[], [⟨4, "Carol", 2, 3, 9, 150, .upcoming⟩], 5⟩ : DB).bookings
      (cancelBooking ⟨[], [⟨4, "Carol", 2, 3, 9, 150, .upcoming⟩], 5⟩ 4).2.bookings :=
  cancelBooking_frame ⟨[], [⟨4, "Carol", 2, 3, 9, 150, .upcoming⟩], 5⟩ 4
    ⟨4, "Carol", 2, 3, 9, 150, .upcoming⟩ rfl (Or.inl rfl)

/-- C8: on an existing unit (and a well-formed request and store) the
availability verdict is true exactly when the unit's flag is on and no
stored upcoming/active booking of the unit overlaps the requested range;
in particular a switched-off unit is always reported unavailable. -/
theorem checkAvailability_spec (db : DB) (uid : Nat) (s e : Int)
    (u : StorageUnit) (avail : Bool) (conflicts : List Booking)
    (hu : findUnit db uid = some u)
    (hres : checkAvailability db uid s e = some (avail, conflicts))
    (hse : s ≤ e) (hwf : ∀ b ∈ db.bookings, b.startDate ≤ b.endDate) :
    (avail = true ↔ u.isAvailable = true ∧
      ∀ b ∈ db.bookings, b.unitId = uid →
        (b.status = .upcoming ∨ b.status = .active) →
        ¬ overlaps s e b.startDate b.endDate) ∧
    (u.isAvailable = false → avail = false) := by
  simp only [checkAvailability, hu, Option.some.injEq, Prod.mk.injEq] at hres
  obtain ⟨ha, hc⟩ := hres
  subst ha
  constructor
  · rw [Bool.and_eq_true, beq_iff_eq, List.length_eq_zero, List.filter_eq_nil_iff]
    refine and_congr_right fun _ => ⟨fun h b hb h1 h2 h3 => ?_, fun h b hb hp => ?_⟩
    · exact h b hb (by
        simp only [Bool.and_eq_true, beq_iff_eq, isUpcomingOrActive_iff, decide_eq_true_eq]
        exact ⟨⟨h1, h2⟩, (availabilityClauses_iff_overlaps hse (hwf b hb)).mpr h3⟩)
    · simp only [Bool.and_eq_true, beq_iff_eq, isUpcomingOrActive_iff,
        decide_eq_true_eq] at hp
      exact h b hb hp.1.1 hp.1.2 ((availabilityClauses_iff_overlaps hse (hwf b hb)).mp hp.2)
  · intro h
    simp [h]

/-- C8 witness: a concrete unit with the availability flag off and no
bookings at all is reported unavailable for the range 0..5. -/
theorem checkAvailability_spec_witness :
    ((false : Bool) = true ↔
      (⟨7, "Unit B", 10, false⟩ : StorageUnit).isAvailable = true ∧
      ∀ b ∈ (⟨[⟨7, "Unit B", 10, false⟩], [], 1⟩ : DB).bookings, b.unitId = 7 →
        (b.status = .upcoming ∨ b.status = .active) →
        ¬ overlaps 0 5 b.startDate b.endDate) ∧
    ((⟨7, "Unit B", 10, false⟩ : StorageUnit).isAvailable = false →
      (false : Bool) = false) :=
  checkAvailability_spec ⟨[⟨7, "Unit B", 10, false⟩], [], 1⟩ 7 0 5
    ⟨7, "Unit B", 10, false⟩ false [] rfl rfl (by decide) (by simp)

/-- C9: the conflict check and the insert of booking admission are NOT one
atomic transaction. In the interleaving check₁ · check₂ · insert₁ · insert₂
of two concurrent admissions of the overlapping ranges [10,20] and [15,25]
on the same unit of an initially empty store, both requests pass and the
final store holds two overlapping upcoming bookings on that unit — whereas
under serialized execution the second request is rejected with Conflict. -/
theorem admission_race_not_atomic :
    overlaps 10 20 15 25 ∧
    (racedAdmit ⟨[⟨1, "Unit A", 25, true⟩], [], 1⟩
        ⟨"Alice", 1, 10, 20⟩ ⟨"Bob", 1, 15, 25⟩ 0).2 = (true, true) ∧
    ((racedAdmit ⟨[⟨1, "Unit A", 25, true⟩], [], 1⟩
        ⟨"Alice", 1, 10, 20⟩ ⟨"Bob", 1, 15, 25⟩ 0).1.bookings.map
      (fun b => (b.unitId, b.startDate, b.endDate, isUpcomingOrActive b.status)))
      = [(1, 10, 20, true), (1, 15, 25, true)] ∧
    (createBooking
        (createBooking ⟨[⟨1, "Unit A", 25, true⟩], [], 1⟩ "Alice" 1 10 20 0).2
        "Bob" 1 15 25 0).1 = Except.error CreateError.Conflict :=
  ⟨by decide, rfl, rfl, rfl⟩

/-- `begMatches` succeeds exactly on the prefixes of the text. -/
lemma begMatches_iff (q t : List Char) :
    begMatches q t = true ↔ ∃ v, t = q ++ v := by
  induction q generalizing t with
  | nil => simp [begMatches]
  | cons p ps ih =>
    cases t with
    | nil => simp [begMatches]
    | cons c ts =>
      simp only [begMatches, Bool.and_eq_true, beq_iff_eq, ih, List.cons_append,
        List.cons.injEq]
      constructor
      · rintro ⟨rfl, v, rfl⟩
        exact ⟨v, rfl, rfl⟩
      · rintro ⟨v, rfl, rfl⟩
        exact ⟨rfl, v, rfl⟩

/-- The executable substring test agrees with the substring proposition. -/
lemma occursIn_iff (q t : List Char) :
    occursIn q t = true ↔ OccursIn q t := by
  induction t with
  | nil =>
    simp only [occursIn, List.isEmpty_iff, OccursIn]
    constructor
    · rintro rfl
      exact ⟨[], [], rfl⟩
    · rintro ⟨u, v, h⟩
      have := congrArg List.length h
      simp at this
      exact List.length_eq_zero.mp (by omega)
  | cons c ts ih =>
    simp only [occursIn, Bool.or_eq_true, begMatches_iff, ih, OccursIn]
    constructor
    · rintro (⟨v, h⟩ | ⟨u, v, h⟩)
      · exact ⟨[], v, by simp [h]⟩
      · exact ⟨c :: u, v, by simp [h]⟩
    · rintro ⟨u, v, h⟩
      cases u with
      | nil => exact Or.inl ⟨v, by simpa using h⟩
      | cons a u =>
        right
        injection h with h1 h2
        exact ⟨u, v, h2⟩

/-- A leading `%` consumes an arbitrary prefix of the text. -/
lemma likeMatch_pct (ps : List Char) (t : List Char) :
    likeMatch ('%' :: ps) t = true ↔ ∃ u v, t = u ++ v ∧ likeMatch ps v = true := by
  induction t with
  | nil =>
    simp only [likeMatch, beq_self_eq_true, Bool.true_and]
    constructor
    · intro h
      exact ⟨[], [], rfl, h⟩
    · rintro ⟨u, v, h, hv⟩
      obtain ⟨rfl, rfl⟩ : u = [] ∧ v = [] := List.append_eq_nil.mp h.symm
      exact hv
  | cons c ts ih =>
    simp only [likeMatch, beq_self_eq_true, if_true, Bool.or_eq_true, ih]
    constructor
    · rintro (h | ⟨u, v, rfl, hv⟩)
      · exact ⟨[], c :: ts, rfl, h⟩
      · exact ⟨c :: u, v, rfl, hv⟩
    · rintro ⟨u, v, h, hv⟩
      cases u with
      | nil => exact Or.inl (by simpa using h ▸ hv)
      | cons a u =>
        injection h with h1 h2
        exact Or.inr ⟨u, v, h2, hv⟩

/-- A wildcard-free pattern segment followed by `%` matches the texts that
start (case-insensitively) with that segment. -/
lemma likeMatch_lit (q : List Char) (hq1 : '%' ∉ q) (hq2 : '_' ∉ q)
    (t : List Char) :
    likeMatch (q ++ ['%']) t = true ↔
      ∃ u v, t = u ++ v ∧ u.map Char.toLower = q.map Char.toLower := by
  induction q generalizing t with
  | nil =>
    simp only [List.nil_append, List.map_nil]
    constructor
    · intro _
      exact ⟨[], t, rfl, rfl⟩
    · intro _
      rw [likeMatch_pct]
      exact ⟨t, [], by simp, by simp [likeMatch]⟩
  | cons a q ih =>
    have ha1 : a ≠ '%' := fun h => hq1 (h ▸ List.mem_cons_self a q)
    have ha2 : a ≠ '_' := fun h => hq2 (h ▸ List.mem_cons_self a q)
    have hq1' : '%' ∉ q := fun h => hq1 (List.mem_cons_of_mem a h)
    have hq2' : '_' ∉ q := fun h => hq2 (List.mem_cons_of_mem a h)
    cases t with
    | nil =>
      have e1 : (a == '%') = false := by simp [ha1]
      simp only [List.cons_append, likeMatch, e1, Bool.false_and,
        Bool.false_eq_true, false_iff]
      rintro ⟨u, v, h, hm⟩
      obtain rfl : u = [] := (List.append_eq_nil.mp h.symm).1
      simp at hm
    | cons c ts =>
      have e1 : (a == '%') = false := by simp [ha1]
      have e2 : (a == '_') = false := by simp [ha2]
      simp only [List.cons_append, likeMatch, e1, e2, Bool.false_eq_true, if_false,
        Bool.and_eq_true, beq_iff_eq, ih hq1' hq2', List.map_cons]
      constructor
      · rintro ⟨hac, u, v, rfl, hm⟩
        exact ⟨c :: u, v, rfl, by simp [hm, hac]⟩
      · rintro ⟨u, v, h, hm⟩
        cases u with
        | nil => simp at hm
        | cons b u =>
          injection h with h1 h2
          subst h1
          simp only [List.map_cons, List.cons.injEq] at hm
          exact ⟨hm.1.symm, u, v, h2, hm.2⟩

/-- For a wildcard-free query `q`, the ILIKE pattern `%q%` matches exactly
the texts containing `q` as a case-insensitive substring. -/
lemma ilike_sub_iff (q t : List Char) (hq1 : '%' ∉ q) (hq2 : '_' ∉ q) :
    likeMatch ('%' :: q ++ ['%']) t = true ↔
      OccursIn (q.map Char.toLower) (t.map Char.toLower) := by
  rw [show ('%' :: q ++ ['%']) = '%' :: (q ++ ['%']) from rfl, likeMatch_pct]
  constructor
  · rintro ⟨u, v, rfl, hv⟩
    obtain ⟨x, y, rfl, hm⟩ := (likeMatch_lit q hq1 hq2 v).mp hv
    exact ⟨u.map Char.toLower, y.map Char.toLower, by simp [hm]⟩
  · rintro ⟨a, b, hab⟩
    rw [List.append_assoc] at hab
    obtain ⟨u, rest, rfl, hu, hrest⟩ := List.map_eq_append_iff.mp hab
    obtain ⟨x, y, rfl, hx, hy⟩ := List.map_eq_append_iff.mp hrest
    exact ⟨u, x ++ y, rfl, (likeMatch_lit q hq1 hq2 (x ++ y)).mpr ⟨x, y, rfl, hx⟩⟩

/-- C10 (amended): for a validated query free of the SQL LIKE
metacharacters `%`, `_` and `\`, a stored booking is selected by the
user-bookings whereClause exactly when the query occurs as a
case-insensitive substring of the booking's userName. -/
theorem listBookingsForUser_substring (db : DB) (q : String) (b : Booking)
    (hq1 : '%' ∉ q.data) (hq2 : '_' ∉ q.data) (hq3 : '\\' ∉ q.data) :
    b ∈ listBookingsForUser db q ↔
      b ∈ db.bookings ∧
        OccursIn (q.data.map Char.toLower) (b.userName.data.map Char.toLower) := by
  unfold listBookingsForUser
  rw [List.mem_filter]
  exact and_congr_right fun _ => ilike_sub_iff q.data b.userName.data hq1 hq2

/-- C10 witness: the query "test" selects the booking of "Test User". -/
theorem listBookingsForUser_substring_witness :
    (⟨1, "Test User", 1, 0, 10, 100, .upcoming⟩ : Booking) ∈
      listBookingsForUser ⟨[], [⟨1, "Test User", 1, 0, 10, 100, .upcoming⟩], 2⟩
        "test" := by
  refine (listBookingsForUser_substring
      ⟨[], [⟨1, "Test User", 1, 0, 10, 100, .upcoming⟩], 2⟩ "test"
      ⟨1, "Test User", 1, 0, 10, 100, .upcoming⟩
      (by decide) (by decide) (by decide)).mpr ⟨by simp, ?_⟩
  rw [← occursIn_iff]
  decide

/-- C10 counterexample: the claim's substring reading fails on queries
containing SQL wildcards. The one-character query "%" selects the booking
of "Bob", yet "%" is not a substring of "bob". -/
theorem listBookingsForUser_not_substring_on_wildcards :
    ¬ ((⟨1, "Bob", 1, 0, 10, 100, .upcoming⟩ : Booking) ∈
        listBookingsForUser ⟨[], [⟨1, "Bob", 1, 0, 10, 100, .upcoming⟩], 2⟩ "%" ↔
      (⟨1, "Bob", 1, 0, 10, 100, .upcoming⟩ : Booking) ∈
        (⟨[], [⟨1, "Bob", 1, 0, 10, 100, .upcoming⟩], 2⟩ : DB).bookings ∧
      OccursIn ("%".data.map Char.toLower) ("Bob".data.map Char.toLower)) := by
  intro h
  have hmem : (⟨1, "Bob", 1, 0, 10, 100, .upcoming⟩ : Booking) ∈
      listBookingsForUser ⟨[], [⟨1, "Bob", 1, 0, 10, 100, .upcoming⟩], 2⟩ "%" := by
    unfold listBookingsForUser
    refine List.mem_filter.mpr ⟨by simp, ?_⟩
    simp +decide [likeMatch]
  have hocc := (h.mp hmem).2
  rw [← occursIn_iff] at hocc
  exact absurd hocc (by decide)

end StorageBooking
